import Mathlib

/-!
Verification of `pycrf/modules/char_lstm.py` (the character-level LSTM word
encoder of the `pytorch-crf` repository) against its specification.

The module is shallowly embedded here.  Tensors are modelled as a flat list of
rational entries together with an explicit shape, mirroring the row-major
layout the source relies on.  The `torch.nn.LSTM` building block is treated,
as the spec prescribes, as an external collaborator: its recurrence is
parameterised by an abstract per-layer/per-direction cell function of the
learned weights, while its interface behaviour (batch-first layout, the
`input.size(-1) == input_size` check of `check_input`, the shape
`[(layers * directions) x 1 x hidden_size]` of the returned final hidden
state, layer-major then direction stacking order, inter-layer dropout during
training) is modelled faithfully.  Zero-length sequences, whose behaviour the
primitive leaves undefined, are modelled as a primitive-level failure.
-/

namespace PyCRF

/-- A tensor: an explicit shape and a flat row-major data list. -/
structure Tensor where
  shape : List Nat
  data : List ℚ
deriving DecidableEq

/-- Model of `t.unsqueeze(0)`: a new leading dimension of size 1. -/
def Tensor.unsqueeze0 (t : Tensor) : Tensor :=
  ⟨1 :: t.shape, t.data⟩

/-- Model of `t.squeeze()` with no argument: every dimension of size 1 is
removed; the data is unchanged. -/
def Tensor.squeezeAll (t : Tensor) : Tensor :=
  ⟨t.shape.filter (fun d => d != 1), t.data⟩

/-- Model of `t.view(-1)`: one flat dimension holding all entries. -/
def Tensor.viewFlat (t : Tensor) : Tensor :=
  ⟨[t.shape.prod], t.data⟩

/-- Row `i` of a 2-D tensor whose rows have width `w`. -/
def Tensor.row (t : Tensor) (i w : Nat) : List ℚ :=
  (t.data.drop (i * w)).take w

/-- Errors surfaced by the embedded computation.  `inputSizeMismatch` is the
`check_input` failure of the recurrent primitive when the feature width of a word
disagrees with `input_size`; `zeroLengthSequence` is the primitive-level
failure on a zero-length sequence (behaviour undefined in the primitive);
`badDim` is the rejection by the primitive of a non-3-D batched input; `catEmpty`
is the failure of `torch.cat` on an empty list of tensors. -/
inductive TErr where
  | inputSizeMismatch : TErr
  | zeroLengthSequence : TErr
  | badDim : TErr
  | catEmpty : TErr
deriving DecidableEq

/-- Model of `torch.cat(ts, dim=0)`: fails on an empty list (as `torch.cat`
does), otherwise sums the leading dimensions and concatenates the data. -/
def catDim0 : List Tensor → Except TErr Tensor
  | [] => .error .catEmpty
  | t :: ts =>
      .ok ⟨((t :: ts).map (fun u => u.shape.headD 0)).sum :: t.shape.tail,
           ((t :: ts).map (fun u => u.data)).flatten⟩

/-- Model of the `torch.nn.LSTM` collaborator as configured by `CharLSTM`
(`batch_first=True`).  The learned weights are abstracted into `cell`, which
maps (layer index, is-backward-direction, hidden state, cell state, input
row) to the next hidden and cell states; the hidden width per layer and
direction is `hidden_size` by the contract of the primitive.  `mask` is the
stochastic source consulted by inter-layer dropout during training. -/
structure LSTMMod where
  input_size : Nat
  hidden_size : Nat
  num_layers : Nat
  bidirectional : Bool
  dropout : ℚ
  cell : Nat → Bool → (Fin hidden_size → ℚ) → (Fin hidden_size → ℚ) → List ℚ →
    (Fin hidden_size → ℚ) × (Fin hidden_size → ℚ)
  mask : Nat → Nat → Nat → Bool

/-- Number of directions of the primitive: 2 if bidirectional else 1. -/
def LSTMMod.directions (r : LSTMMod) : Nat :=
  if r.bidirectional then 2 else 1

/-- Total width of the stacked final hidden state:
`num_layers * directions * hidden_size`. -/
def LSTMMod.stateWidth (r : LSTMMod) : Nat :=
  r.num_layers * r.directions * r.hidden_size

/-- The all-zero hidden vector (the default initial state of the primitive). -/
def zerosV (H : Nat) : Fin H → ℚ := fun _ => 0

/-- One directional scan of a cell over the rows of a sequence, from a given
(hidden, cell) state: returns the per-step hidden outputs and the final
(hidden, cell) state. -/
def scanCell {H : Nat}
    (step : ((Fin H → ℚ) × (Fin H → ℚ)) → List ℚ → ((Fin H → ℚ) × (Fin H → ℚ)))
    (s : (Fin H → ℚ) × (Fin H → ℚ)) :
    List (List ℚ) → (List (Fin H → ℚ)) × ((Fin H → ℚ) × (Fin H → ℚ))
  | [] => ([], s)
  | x :: xs =>
      let s2 := step s x
      let rest := scanCell step s2 xs
      (s2.1 :: rest.1, rest.2)

/-- One layer of the primitive on a sequence of input rows: the forward
direction scans the rows in order and, when bidirectional, the backward
direction scans them reversed; per-step outputs concatenate the two
directions and the final hidden/cell states are listed forward first, then
backward (the direction order of the primitive within a layer). -/
def runLayer (r : LSTMMod) (l : Nat) (rows : List (List ℚ)) :
    (List (List ℚ)) × (List (Fin r.hidden_size → ℚ)) × (List (Fin r.hidden_size → ℚ)) :=
  let sF := scanCell (fun s x => r.cell l false s.1 s.2 x)
    (zerosV r.hidden_size, zerosV r.hidden_size) rows
  if r.bidirectional then
    let sB := scanCell (fun s x => r.cell l true s.1 s.2 x)
      (zerosV r.hidden_size, zerosV r.hidden_size) rows.reverse
    (List.zipWith (fun a b => List.ofFn a ++ List.ofFn b) sF.1 sB.1.reverse,
     [sF.2.1, sB.2.1], [sF.2.2, sB.2.2])
  else
    (sF.1.map List.ofFn, [sF.2.1], [sF.2.2])

/-- Map with the position of the element, starting at index `i`. -/
def idxMapFrom {α β : Type} (f : Nat → α → β) : Nat → List α → List β
  | _, [] => []
  | i, a :: l => f i a :: idxMapFrom f (i + 1) l

/-- Inter-layer dropout of the primitive: active only during training with a
non-zero rate; kept entries are rescaled by `1 / (1 - dropout)` (inverted
dropout), dropped entries become 0 according to the stochastic `mask`. -/
def interDropout (r : LSTMMod) (training : Bool) (l : Nat)
    (rows : List (List ℚ)) : List (List ℚ) :=
  if training && (r.dropout != 0) then
    idxMapFrom (fun t row =>
      idxMapFrom (fun i x => if r.mask l t i then 0 else x / (1 - r.dropout)) 0 row)
      0 rows
  else rows

/-- The stacked layers of the primitive, starting at layer `l` with `n`
layers remaining: each layer consumes the per-step outputs of the previous layer
(with dropout applied between layers, not after the last), and the final
hidden/cell states are accumulated layer-major (the directions of layer 0 first),
which is the stacking order of the primitive for `h_n`. -/
def runLayers (r : LSTMMod) (training : Bool) :
    Nat → Nat → List (List ℚ) →
    (List (List ℚ)) × (List (Fin r.hidden_size → ℚ)) × (List (Fin r.hidden_size → ℚ))
  | _, 0, rows => (rows, [], [])
  | l, n + 1, rows =>
      let step := runLayer r l rows
      let fed := if n = 0 then step.1 else interDropout r training l step.1
      let rest := runLayers r training (l + 1) n fed
      (rest.1, step.2.1 ++ rest.2.1, step.2.2 ++ rest.2.2)

/-- Split a flat data list into `t` rows of width `c` (row-major layout). -/
def chunkRows (t c : Nat) (data : List ℚ) : List (List ℚ) :=
  (List.range t).map (fun i => (data.drop (i * c)).take c)

/-- The full stacked recurrence of the primitive on a `t x c` input. -/
def lstmRun (r : LSTMMod) (training : Bool) (t c : Nat) (data : List ℚ) :
    (List (List ℚ)) × (List (Fin r.hidden_size → ℚ)) × (List (Fin r.hidden_size → ℚ)) :=
  runLayers r training 0 r.num_layers (chunkRows t c data)

/-- Model of calling the primitive on a batch-first input, as
`self.rnn(word.unsqueeze(0))` does: a 3-D input `[b, t, c]` is required, the
feature width must equal `input_size` (the `check_input` of the primitive), a
zero-length sequence is a primitive-level failure, and otherwise the call
returns the per-step output tensor together with the final hidden state
`h_n` and cell state `c_n`, both of shape
`[(num_layers * directions), 1, hidden_size]`. -/
def lstmForward (r : LSTMMod) (training : Bool) (input : Tensor) :
    Except TErr (Tensor × Tensor × Tensor) :=
  match input.shape with
  | [b, t, c] =>
      if c = r.input_size then
        if t = 0 then .error .zeroLengthSequence
        else
          let res := lstmRun r training t c input.data
          .ok (⟨[b, t, r.directions * r.hidden_size], res.1.flatten⟩,
               ⟨[r.num_layers * r.directions, 1, r.hidden_size],
                (res.2.1.map List.ofFn).flatten⟩,
               ⟨[r.num_layers * r.directions, 1, r.hidden_size],
                (res.2.2.map List.ofFn).flatten⟩)
      else .error .inputSizeMismatch
  | _ => .error .badDim

/-- The `CharLSTM` module: its stored attributes `n_chars`, `output_size` and
`rnn`, plus the `training` flag every `torch.nn.Module` carries (set by
`train()` / `eval()`). -/
structure CharLSTM where
  n_chars : Nat
  output_size : Nat
  rnn : LSTMMod
  training : Bool

/-- Model of `CharLSTM.__init__`: stores `n_chars`, computes
`output_size = layers * hidden_size`, doubled when bidirectional, and builds
the LSTM with `input_size=n_chars`.  The source performs no validation of
any hyperparameter, so construction is total.  `cell` and `mask` stand for
the learned weights and the dropout noise source of the primitive; `training` is the
initial mode of the module. -/
def CharLSTM.init (n_chars hidden_size : Nat) (bidirectional : Bool)
    (layers : Nat) (dropout : ℚ)
    (cell : Nat → Bool → (Fin hidden_size → ℚ) → (Fin hidden_size → ℚ) → List ℚ →
      (Fin hidden_size → ℚ) × (Fin hidden_size → ℚ))
    (mask : Nat → Nat → Nat → Bool) (training : Bool) : CharLSTM :=
  let o := layers * hidden_size
  let o := if bidirectional then o * 2 else o
  { n_chars := n_chars
    output_size := o
    rnn :=
      { input_size := n_chars
        hidden_size := hidden_size
        num_layers := layers
        bidirectional := bidirectional
        dropout := dropout
        cell := cell
        mask := mask }
    training := training }

/-- The loop body of `CharLSTM.forward`: for each word, run
`self.rnn(word.unsqueeze(0))`, keep `state[0]` (the final hidden state,
discarding the per-step outputs and the cell state), `squeeze()` it,
`view(-1).unsqueeze(0)` it, and collect the row; an exception from the
primitive aborts the whole call. -/
def CharLSTM.collectHiddens (m : CharLSTM) : List Tensor → Except TErr (List Tensor)
  | [] => .ok []
  | w :: ws =>
      match lstmForward m.rnn m.training w.unsqueeze0 with
      | .error e => .error e
      | .ok s =>
          let hidden := s.2.1
          let hidden := hidden.squeezeAll
          let hidden := hidden.viewFlat.unsqueeze0
          match CharLSTM.collectHiddens m ws with
          | .error e => .error e
          | .ok rest => .ok (hidden :: rest)

/-- Model of `CharLSTM.forward`: collect the per-word hidden rows and
concatenate them with `torch.cat(hiddens, dim=0)`. -/
def CharLSTM.forward (m : CharLSTM) (inputs : List Tensor) : Except TErr Tensor :=
  match m.collectHiddens inputs with
  | .error e => .error e
  | .ok hiddens => catDim0 hiddens

/-- A call to `forward` as an operation on the module: the `forward` of the source
assigns no attribute of `self` (lines 65-102 contain no writes), so a call
returns its result and leaves the module unchanged. -/
def CharLSTM.encodeCall (m : CharLSTM) (inputs : List Tensor) :
    Except TErr Tensor × CharLSTM :=
  (m.forward inputs, m)

/-- The flattened final hidden state the encoder extracts for one word: the
`h_n` entries of the primitive in its native layer-major, then direction,
ordering. -/
def wordFeature (r : LSTMMod) (training : Bool) (w : Tensor) : List ℚ :=
  match w.shape with
  | [t, c] => ((lstmRun r training t c w.data).2.1.map List.ofFn).flatten
  | _ => []

/-- A word matrix valid for feature width `c`: 2-D, at least one row, and
exactly `c` columns. -/
def isValidWord (c : Nat) (w : Tensor) : Bool :=
  match w.shape with
  | [t, c2] => t != 0 && c2 == c
  | _ => false

/-- A word matrix that is 2-D with at least one row (any column count). -/
def isWordShaped (w : Tensor) : Bool :=
  match w.shape with
  | [t, _] => t != 0
  | _ => false

/-- The column count (feature width) of a word matrix. -/
def wordWidth (w : Tensor) : Nat :=
  w.shape.getD 1 0

/-- A concrete cell function on hidden width 1, used to instantiate the
abstract primitive weights in witnesses. -/
def cellA : Nat → Bool → (Fin 1 → ℚ) → (Fin 1 → ℚ) → List ℚ →
    (Fin 1 → ℚ) × (Fin 1 → ℚ) :=
  fun _ _ h c x => (fun i => h i + x.headD 0, fun i => c i + x.headD 0 * x.headD 0)

/-- A concrete dropout noise source (never drops), used in witnesses. -/
def maskA : Nat → Nat → Nat → Bool := fun _ _ _ => false

/-- Filtering the dimensions of size 1 out of a shape does not change the
number of entries the shape describes. -/
theorem prod_filter_ne_one (L : List Nat) :
    (L.filter (fun d => d != 1)).prod = L.prod := by
  induction L with
  | nil => rfl
  | cons a l ih =>
      by_cases ha : a = 1
      · subst ha; simpa using ih
      · simp [List.filter_cons, ha, ih]

/-- The `squeeze(); view(-1); unsqueeze(0)` pipeline of `forward` on the
final hidden state of shape `[(layers * directions), 1, hidden_size]`
produces a `[1, (layers * directions) * hidden_size]` row holding the same
entries. -/
theorem row_tensor_eq (a h : Nat) (d : List ℚ) :
    (Tensor.mk [a, 1, h] d).squeezeAll.viewFlat.unsqueeze0
      = Tensor.mk [1, a * h] d := by
  simp [Tensor.squeezeAll, Tensor.viewFlat, Tensor.unsqueeze0,
    prod_filter_ne_one [a, 1, h]]

/-- Destructor for `isValidWord`. -/
theorem isValidWord_elim (c : Nat) (w : Tensor) (h : isValidWord c w = true) :
    ∃ t, t ≠ 0 ∧ w.shape = [t, c] := by
  cases hsh : w.shape with
  | nil => simp [isValidWord, hsh] at h
  | cons t rest =>
      cases rest with
      | nil => simp [isValidWord, hsh] at h
      | cons c2 rest2 =>
          cases rest2 with
          | nil =>
              simp only [isValidWord, hsh] at h
              simp at h
              obtain ⟨h1, h2⟩ := h
              subst h2
              exact ⟨t, h1, rfl⟩
          | cons x rest3 => simp [isValidWord, hsh] at h

/-- The stacked recurrence accumulates exactly `directions` final hidden
vectors per remaining layer. -/
theorem runLayers_hs_length (r : LSTMMod) (tr : Bool) :
    ∀ (n l : Nat) (rows : List (List ℚ)),
      ((runLayers r tr l n rows).2.1).length = n * r.directions := by
  intro n
  induction n with
  | zero => intro l rows; simp [runLayers]
  | succ n ih =>
      intro l rows
      simp only [runLayers, List.length_append, ih]
      unfold runLayer LSTMMod.directions
      by_cases hb : r.bidirectional
      · simp [hb]; ring
      · simp [hb]; ring

/-- Flattening a list of hidden vectors of width `H` yields
`count * H` entries. -/
theorem flatten_map_ofFn_length {H : Nat} (L : List (Fin H → ℚ)) :
    ((L.map List.ofFn).flatten).length = L.length * H := by
  induction L with
  | nil => simp
  | cons a l ih => simp [ih]; ring

/-- The per-word feature vector of any 2-D word matrix has exactly
`stateWidth = num_layers * directions * hidden_size` entries. -/
theorem wordFeature_length (r : LSTMMod) (tr : Bool) (w : Tensor) (t c : Nat)
    (hsh : w.shape = [t, c]) :
    (wordFeature r tr w).length = r.stateWidth := by
  simp only [wordFeature, hsh]
  rw [flatten_map_ofFn_length]
  unfold lstmRun
  rw [runLayers_hs_length]
  rfl

/-- Running the primitive on a word matrix of nonzero length and of the
configured feature width succeeds and returns the final hidden state tensor
`h_n` of shape `[(num_layers * directions), 1, hidden_size]` whose entries
are exactly `wordFeature`. -/
theorem word_step (r : LSTMMod) (tr : Bool) (w : Tensor) (t : Nat)
    (ht : t ≠ 0) (hsh : w.shape = [t, r.input_size]) :
    lstmForward r tr w.unsqueeze0
      = .ok (⟨[1, t, r.directions * r.hidden_size],
               ((lstmRun r tr t r.input_size w.data).1).flatten⟩,
             ⟨[r.num_layers * r.directions, 1, r.hidden_size],
               wordFeature r tr w⟩,
             ⟨[r.num_layers * r.directions, 1, r.hidden_size],
               ((lstmRun r tr t r.input_size w.data).2.2.map List.ofFn).flatten⟩) := by
  simp [lstmForward, Tensor.unsqueeze0, hsh, ht, wordFeature]

/-- On a list of words that are all valid for the configured feature width,
the per-word loop of `forward` succeeds and collects, in input order, one
`[1, stateWidth]` row per word holding the flattened final hidden
state of that word. -/
theorem collect_ok (m : CharLSTM) (ws : List Tensor)
    (hv : ∀ w ∈ ws, isValidWord m.rnn.input_size w = true) :
    m.collectHiddens ws
      = .ok (ws.map (fun w =>
          (⟨[1, m.rnn.stateWidth], wordFeature m.rnn m.training w⟩ : Tensor))) := by
  induction ws with
  | nil => rfl
  | cons w rest ih =>
      obtain ⟨t, ht, hsh⟩ :=
        isValidWord_elim _ _ (hv w (List.mem_cons_self w rest))
      rw [CharLSTM.collectHiddens,
        word_step m.rnn m.training w t ht hsh,
        ih (fun x hx => hv x (List.mem_cons_of_mem _ hx))]
      simp only [row_tensor_eq]
      rfl

/-- The leading dimensions of a list of `[1, S]` rows sum to the number of
rows. -/
theorem sum_map_headD_one (S : Nat) (f : Tensor → List ℚ) (ws : List Tensor) :
    ((ws.map (fun w => (⟨[1, S], f w⟩ : Tensor))).map
      (fun u => u.shape.headD 0)).sum = ws.length := by
  induction ws with
  | nil => rfl
  | cons a l ih =>
      simp only [List.map_cons, List.sum_cons, ih]
      simp only [List.headD_cons, List.length_cons]
      omega

/-- Concatenating `[1, S]` rows along dimension 0 yields a `[count, S]`
tensor whose data is the concatenation of the rows. -/
theorem catDim0_rows (S : Nat) (f : Tensor → List ℚ) (ws : List Tensor)
    (hne : ws ≠ []) :
    catDim0 (ws.map (fun w => (⟨[1, S], f w⟩ : Tensor)))
      = .ok ⟨[ws.length, S], (ws.map f).flatten⟩ := by
  cases ws with
  | nil => exact absurd rfl hne
  | cons w rest =>
      have h1 := sum_map_headD_one S f rest
      simp only [List.map_cons, catDim0, Except.ok.injEq, Tensor.mk.injEq]
      refine ⟨?_, ?_⟩
      · simp only [List.headD_cons, List.tail_cons, List.sum_cons, h1,
          List.length_cons, List.cons.injEq]
        exact ⟨by omega, trivial⟩
      · rw [List.map_map]
        rfl

/-- The central characterisation of `CharLSTM.forward` on a non-empty list
of valid words: it succeeds with a `[len(words), stateWidth]` tensor whose
data stacks the per-word feature vectors in input order. -/
theorem forward_ok (m : CharLSTM) (ws : List Tensor) (hne : ws ≠ [])
    (hv : ∀ w ∈ ws, isValidWord m.rnn.input_size w = true) :
    m.forward ws
      = .ok ⟨[ws.length, m.rnn.stateWidth],
             (ws.map (wordFeature m.rnn m.training)).flatten⟩ := by
  unfold CharLSTM.forward
  rw [collect_ok m ws hv]
  exact catDim0_rows m.rnn.stateWidth (wordFeature m.rnn m.training) ws hne

/-- Extracting row `i` from the concatenation of equal-width rows recovers
the `i`-th row. -/
theorem flatten_row_eq :
    ∀ (L : List (List ℚ)) (w i : Nat), (∀ l ∈ L, l.length = w) →
      i < L.length → ((L.flatten.drop (i * w)).take w) = L.getD i [] := by
  intro L
  induction L with
  | nil => intro w i _ hi; simp at hi
  | cons a l ih =>
      intro w i hlen hi
      have ha : a.length = w := hlen a (List.mem_cons_self a l)
      cases i with
      | zero =>
          simp only [Nat.zero_mul, List.drop_zero, List.flatten_cons,
            List.getD_cons_zero]
          exact List.take_left' ha
      | succ i =>
          simp only [List.flatten_cons, List.getD_cons_succ]
          have key : (i + 1) * w = a.length + i * w := by rw [ha]; ring
          rw [key, List.drop_append]
          exact ih w i (fun x hx => hlen x (List.mem_cons_of_mem _ hx))
            (by simp only [List.length_cons] at hi; omega)

/-- Destructor for `isWordShaped`. -/
theorem isWordShaped_elim (w : Tensor) (h : isWordShaped w = true) :
    ∃ t c, t ≠ 0 ∧ w.shape = [t, c] := by
  cases hsh : w.shape with
  | nil => simp [isWordShaped, hsh] at h
  | cons t rest =>
      cases rest with
      | nil => simp [isWordShaped, hsh] at h
      | cons c2 rest2 =>
          cases rest2 with
          | nil =>
              simp only [isWordShaped, hsh] at h
              simp at h
              exact ⟨t, c2, h, rfl⟩
          | cons x rest3 => simp [isWordShaped, hsh] at h

/-- The primitive rejects, via its `check_input`, a word whose feature width
differs from the configured `input_size`. -/
theorem word_step_err (r : LSTMMod) (tr : Bool) (w : Tensor) (t c : Nat)
    (hsh : w.shape = [t, c]) (hc : c ≠ r.input_size) :
    lstmForward r tr w.unsqueeze0 = .error .inputSizeMismatch := by
  simp [lstmForward, Tensor.unsqueeze0, hsh, hc]

/-- If every word is a genuine (2-D, nonzero-length) word matrix and some
feature width of some word disagrees with `input_size`, the per-word loop fails
with the width-mismatch error and collects nothing. -/
theorem collect_err (m : CharLSTM) (ws : List Tensor)
    (hs : ∀ w ∈ ws, isWordShaped w = true)
    (hex : ∃ w ∈ ws, wordWidth w ≠ m.rnn.input_size) :
    m.collectHiddens ws = .error .inputSizeMismatch := by
  induction ws with
  | nil =>
      obtain ⟨w, hw, _⟩ := hex
      exact absurd hw (List.not_mem_nil w)
  | cons w rest ih =>
      obtain ⟨t, c, ht, hsh⟩ :=
        isWordShaped_elim w (hs w (List.mem_cons_self w rest))
      by_cases hc : c = m.rnn.input_size
      · subst hc
        rw [CharLSTM.collectHiddens, word_step m.rnn m.training w t ht hsh]
        have hrest : ∃ x ∈ rest, wordWidth x ≠ m.rnn.input_size := by
          obtain ⟨x, hx, hne⟩ := hex
          rcases List.mem_cons.mp hx with hxw | hxr
          · exact absurd (by rw [hxw, wordWidth, hsh]; rfl) hne
          · exact ⟨x, hxr, hne⟩
        rw [ih (fun x hx => hs x (List.mem_cons_of_mem _ hx)) hrest]
      · rw [CharLSTM.collectHiddens, word_step_err m.rnn m.training w t c hsh hc]

/-- With the module in inference mode, inter-layer dropout is the identity
regardless of the stochastic mask. -/
theorem interDropout_eval (r : LSTMMod) (l : Nat) (rows : List (List ℚ)) :
    interDropout r false l rows = rows := by
  simp [interDropout]

/-- One primitive layer never consults the dropout mask. -/
theorem runLayer_mask (r : LSTMMod) (mk : Nat → Nat → Nat → Bool) (l : Nat)
    (rows : List (List ℚ)) :
    runLayer { r with mask := mk } l rows = runLayer r l rows := rfl

/-- In inference mode the stacked recurrence is independent of the dropout
mask. -/
theorem runLayers_mask (r : LSTMMod) (mk : Nat → Nat → Nat → Bool) :
    ∀ (n l : Nat) (rows : List (List ℚ)),
      runLayers { r with mask := mk } false l n rows = runLayers r false l n rows := by
  intro n
  induction n with
  | zero => intro l rows; rfl
  | succ n ih =>
      intro l rows
      simp only [runLayers, runLayer_mask, interDropout_eval, ih]

/-- In inference mode a primitive call is independent of the dropout mask. -/
theorem lstmForward_mask (r : LSTMMod) (mk : Nat → Nat → Nat → Bool)
    (input : Tensor) :
    lstmForward { r with mask := mk } false input = lstmForward r false input := by
  cases input with
  | mk sh d =>
      cases sh with
      | nil => rfl
      | cons b sh1 =>
          cases sh1 with
          | nil => rfl
          | cons t sh2 =>
              cases sh2 with
              | nil => rfl
              | cons c sh3 =>
                  cases sh3 with
                  | nil =>
                      simp only [lstmForward, lstmRun, runLayers_mask,
                        LSTMMod.directions]
                  | cons x sh4 => rfl

/-- In inference mode the per-word loop is independent of the dropout
mask. -/
theorem collect_mask (nc os : Nat) (r : LSTMMod) (mk : Nat → Nat → Nat → Bool) :
    ∀ ws, CharLSTM.collectHiddens ⟨nc, os, { r with mask := mk }, false⟩ ws
      = CharLSTM.collectHiddens ⟨nc, os, r, false⟩ ws := by
  intro ws
  induction ws with
  | nil => rfl
  | cons w rest ih =>
      simp only [CharLSTM.collectHiddens, lstmForward_mask, ih]

/-- In inference mode `forward` is independent of the dropout mask. -/
theorem forward_mask (nc os : Nat) (r : LSTMMod) (mk : Nat → Nat → Nat → Bool)
    (ws : List Tensor) :
    CharLSTM.forward ⟨nc, os, { r with mask := mk }, false⟩ ws
      = CharLSTM.forward ⟨nc, os, r, false⟩ ws := by
  simp only [CharLSTM.forward, collect_mask]

/-- In-bounds `getD` agrees with indexing. -/
theorem getD_lt {α : Type} (l : List α) (i : Nat) (d : α) (h : i < l.length) :
    l.getD i d = l[i] := by
  simp [List.getD_eq_getElem?_getD, List.getElem?_eq_getElem h]

/-- In-bounds `getD` commutes with `map`. -/
theorem getD_map_lt {α β : Type} (f : α → β) (l : List α) (i : Nat) (d : β)
    (d2 : α) (h : i < l.length) :
    (l.map f).getD i d = f (l.getD i d2) := by
  rw [getD_lt (l.map f) i d (by simpa using h), getD_lt l i d2 h,
    List.getElem_map]

/-- An in-bounds `getD` value is a member of the list. -/
theorem getD_mem_of_lt {α : Type} (l : List α) (i : Nat) (d : α)
    (h : i < l.length) : l.getD i d ∈ l := by
  rw [getD_lt l i d h]
  exact l.getElem_mem h

/-- The stored `output_size` of the encoder coincides with the width of the
flattened final hidden state of the primitive. -/
theorem init_stateWidth (n h : Nat) (b : Bool) (l : Nat) (dr : ℚ)
    (cell : Nat → Bool → (Fin h → ℚ) → (Fin h → ℚ) → List ℚ →
      (Fin h → ℚ) × (Fin h → ℚ))
    (mask : Nat → Nat → Nat → Bool) (tr : Bool) :
    (CharLSTM.init n h b l dr cell mask tr).rnn.stateWidth
      = (CharLSTM.init n h b l dr cell mask tr).output_size := by
  unfold CharLSTM.init LSTMMod.stateWidth LSTMMod.directions
  cases b
  · simp
  · simp
    ring

/-- Row `i` of a successful `forward` result is exactly the feature vector
of input word `i`. -/
theorem forward_row (m : CharLSTM) (ws : List Tensor) (hne : ws ≠ [])
    (hv : ∀ w ∈ ws, isValidWord m.rnn.input_size w = true)
    (i : Nat) (hi : i < ws.length) (t : Tensor) (ht : m.forward ws = .ok t) :
    t.row i m.rnn.stateWidth
      = wordFeature m.rnn m.training (ws.getD i ⟨[], []⟩) := by
  rw [forward_ok m ws hne hv] at ht
  injection ht with ht
  subst ht
  unfold Tensor.row
  rw [flatten_row_eq (ws.map (wordFeature m.rnn m.training)) m.rnn.stateWidth i
    (by
      intro x hx
      obtain ⟨w, hw, rfl⟩ := List.mem_map.mp hx
      obtain ⟨tw, htw, hshw⟩ := isValidWord_elim _ _ (hv w hw)
      exact wordFeature_length m.rnn m.training w tw m.rnn.input_size hshw)
    (by simpa using hi)]
  exact getD_map_lt (wordFeature m.rnn m.training) ws i [] ⟨[], []⟩ hi

/-- C1: for every construction of the encoder, the stored `output_size`
equals `layers * hidden_size * 2` when bidirectional and
`layers * hidden_size` otherwise; it is computed once at construction, and a
call to `forward` returns its result leaving the module — in particular
`output_size` — unchanged. -/
theorem C1_output_size_formula_and_stable (n h : Nat) (b : Bool) (l : Nat)
    (dr : ℚ)
    (cell : Nat → Bool → (Fin h → ℚ) → (Fin h → ℚ) → List ℚ →
      (Fin h → ℚ) × (Fin h → ℚ))
    (mask : Nat → Nat → Nat → Bool) (tr : Bool) :
    (CharLSTM.init n h b l dr cell mask tr).output_size
        = (if b then l * h * 2 else l * h)
    ∧ ∀ ws, (CharLSTM.init n h b l dr cell mask tr).encodeCall ws
        = ((CharLSTM.init n h b l dr cell mask tr).forward ws,
           CharLSTM.init n h b l dr cell mask tr) := by
  refine ⟨?_, fun ws => rfl⟩
  cases b
  · rfl
  · rfl

/-- C2: the claim says `encode([])` returns an empty result with
`output_size` columns; the code instead reaches `torch.cat` on the empty
collected list, which fails — for every encoder, `forward []` is the
`torch.cat` empty-list error. -/
theorem C2_empty_input_fails (m : CharLSTM) :
    m.forward [] = .error .catEmpty := rfl

/-- C3 counterexample: the claim quantifies over every list of valid word
matrices, which includes the empty list, where `forward` raises instead of
returning a `[0, output_size]` result. -/
theorem C3_counterexample :
    CharLSTM.forward (CharLSTM.init 2 1 true 1 0 cellA maskA false) []
        = .error .catEmpty
    ∧ ∀ t, CharLSTM.forward (CharLSTM.init 2 1 true 1 0 cellA maskA false) []
        ≠ .ok t := by
  refine ⟨rfl, fun t ht => ?_⟩
  simp [CharLSTM.forward, CharLSTM.collectHiddens, catDim0] at ht

/-- C3 (amended to non-empty lists): for every non-empty list of word
matrices of shape `[word_length_i, n_chars]` with `word_length_i ≥ 1`,
`forward` returns a 2-D tensor of shape `[len(words), output_size]`, every
row has exactly `output_size` entries, and row `i` is the feature vector of
input word `i`. -/
theorem C3_forward_shape_rows (n h : Nat) (b : Bool) (l : Nat) (dr : ℚ)
    (cell : Nat → Bool → (Fin h → ℚ) → (Fin h → ℚ) → List ℚ →
      (Fin h → ℚ) × (Fin h → ℚ))
    (mask : Nat → Nat → Nat → Bool) (tr : Bool) (m : CharLSTM)
    (hm : m = CharLSTM.init n h b l dr cell mask tr)
    (ws : List Tensor) (hne : ws ≠ [])
    (hv : ∀ w ∈ ws, isValidWord n w = true) :
    m.forward ws = .ok ⟨[ws.length, m.output_size],
        (ws.map (wordFeature m.rnn m.training)).flatten⟩
    ∧ (∀ w ∈ ws, (wordFeature m.rnn m.training w).length = m.output_size)
    ∧ (∀ i, i < ws.length → ∀ t, m.forward ws = .ok t →
        t.row i m.output_size
          = wordFeature m.rnn m.training (ws.getD i ⟨[], []⟩)) := by
  subst hm
  have hsw := init_stateWidth n h b l dr cell mask tr
  have hv2 : ∀ w ∈ ws,
      isValidWord (CharLSTM.init n h b l dr cell mask tr).rnn.input_size w
        = true := hv
  refine ⟨?_, ?_, ?_⟩
  · rw [forward_ok _ ws hne hv2, hsw]
  · intro w hw
    obtain ⟨tw, htw, hshw⟩ := isValidWord_elim _ _ (hv w hw)
    rw [wordFeature_length _ _ w tw n hshw, hsw]
  · intro i hi t ht
    rw [← hsw]
    exact forward_row _ ws hne hv2 i hi t ht

/-- C4: the claim says construction fails with `InvalidConfiguration` for
out-of-range hyperparameters; `CharLSTM.__init__` performs no validation at
all (and no such error exists in the code), so construction succeeds even
with `n_chars = 0` and with `dropout = 1` (a value also accepted by the own
`0 ≤ dropout ≤ 1` check of `torch.nn.LSTM`), storing the out-of-range values. -/
theorem C4_no_construction_validation
    (cell : Nat → Bool → (Fin 3 → ℚ) → (Fin 3 → ℚ) → List ℚ →
      (Fin 3 → ℚ) × (Fin 3 → ℚ))
    (mask : Nat → Nat → Nat → Bool) :
    (CharLSTM.init 0 3 true 1 0 cell mask false).n_chars = 0
    ∧ (CharLSTM.init 0 3 true 1 0 cell mask false).output_size = 6
    ∧ (CharLSTM.init 5 3 true 2 1 cell mask false).rnn.dropout = 1
    ∧ (CharLSTM.init 5 3 true 2 1 cell mask false).output_size = 12 := by
  exact ⟨rfl, rfl, rfl, rfl⟩

/-- C5: when the column count of some word matrix differs from `n_chars` (and the
words are genuine 2-D, nonzero-length matrices), the call fails with the
width-mismatch error raised by the input check of the primitive, produces no
partial result, and leaves every stored attribute of the encoder
unchanged. -/
theorem C5_width_mismatch_fails (n h : Nat) (b : Bool) (l : Nat) (dr : ℚ)
    (cell : Nat → Bool → (Fin h → ℚ) → (Fin h → ℚ) → List ℚ →
      (Fin h → ℚ) × (Fin h → ℚ))
    (mask : Nat → Nat → Nat → Bool) (tr : Bool) (m : CharLSTM)
    (hm : m = CharLSTM.init n h b l dr cell mask tr)
    (ws : List Tensor) (hs : ∀ w ∈ ws, isWordShaped w = true)
    (hex : ∃ w ∈ ws, wordWidth w ≠ n) :
    m.forward ws = .error .inputSizeMismatch
    ∧ m.encodeCall ws = (.error .inputSizeMismatch, m) := by
  subst hm
  have hc := collect_err (CharLSTM.init n h b l dr cell mask tr) ws hs hex
  constructor
  · unfold CharLSTM.forward
    rw [hc]
  · unfold CharLSTM.encodeCall CharLSTM.forward
    rw [hc]

/-- C6: the claim requires an encoder-level `EmptyWordError` or an explicit
zero-vector policy for zero-length words; the code has no such guard — a
zero-length word matrix is handed directly to the recurrent primitive, and
what surfaces is the primitive-level zero-length failure, for every
encoder. -/
theorem C6_zero_length_unguarded (n h : Nat) (b : Bool) (l : Nat) (dr : ℚ)
    (cell : Nat → Bool → (Fin h → ℚ) → (Fin h → ℚ) → List ℚ →
      (Fin h → ℚ) × (Fin h → ℚ))
    (mask : Nat → Nat → Nat → Bool) (tr : Bool) :
    (CharLSTM.init n h b l dr cell mask tr).forward [⟨[0, n], []⟩]
      = .error .zeroLengthSequence := by
  simp [CharLSTM.forward, CharLSTM.collectHiddens, lstmForward,
    Tensor.unsqueeze0, CharLSTM.init]

/-- C7: output row `i` depends only on word `i` and the fixed parameters:
applying any index selection (in particular any permutation) to the input
words produces the correspondingly selected output rows, and two word lists
agreeing at position `i` yield identical rows `i`. -/
theorem C7_row_locality (n h : Nat) (b : Bool) (l : Nat) (dr : ℚ)
    (cell : Nat → Bool → (Fin h → ℚ) → (Fin h → ℚ) → List ℚ →
      (Fin h → ℚ) × (Fin h → ℚ))
    (mask : Nat → Nat → Nat → Bool) (tr : Bool) (m : CharLSTM)
    (hm : m = CharLSTM.init n h b l dr cell mask tr) :
    (∀ (ws : List Tensor) (sel : List Nat),
        (∀ w ∈ ws, isValidWord n w = true) → sel ≠ [] →
        (∀ j ∈ sel, j < ws.length) →
        ∃ t t2, m.forward ws = .ok t
          ∧ m.forward (sel.map (fun j => ws.getD j ⟨[], []⟩)) = .ok t2
          ∧ t2.shape = [sel.length, m.output_size]
          ∧ ∀ k, k < sel.length →
              t2.row k m.output_size = t.row (sel.getD k 0) m.output_size)
    ∧ (∀ (ws ws2 : List Tensor) (i : Nat),
        (∀ w ∈ ws, isValidWord n w = true) →
        (∀ w ∈ ws2, isValidWord n w = true) →
        i < ws.length → i < ws2.length →
        ws.getD i ⟨[], []⟩ = ws2.getD i ⟨[], []⟩ →
        ∃ t t2, m.forward ws = .ok t ∧ m.forward ws2 = .ok t2
          ∧ t.row i m.output_size = t2.row i m.output_size) := by
  subst hm
  have hsw := init_stateWidth n h b l dr cell mask tr
  constructor
  · intro ws sel hv hselne hselb
    have hwsne : ws ≠ [] := by
      obtain ⟨j, hj⟩ := List.exists_mem_of_ne_nil sel hselne
      intro hnil
      subst hnil
      exact absurd (hselb j hj) (by simp)
    have hv2 : ∀ w ∈ sel.map (fun j => ws.getD j (⟨[], []⟩ : Tensor)),
        isValidWord n w = true := by
      intro w hw
      obtain ⟨j, hj, rfl⟩ := List.mem_map.mp hw
      exact hv _ (getD_mem_of_lt ws j ⟨[], []⟩ (hselb j hj))
    refine ⟨_, _, forward_ok _ ws hwsne hv,
      forward_ok _ _ (by simp [hselne]) hv2, ?_, ?_⟩
    · simp [hsw]
    · intro k hk
      rw [← hsw]
      rw [forward_row _ _ (by simp [hselne]) hv2 k (by simpa using hk) _
        (forward_ok _ _ (by simp [hselne]) hv2)]
      rw [forward_row _ ws hwsne hv (sel.getD k 0)
        (hselb _ (getD_mem_of_lt sel k 0 hk)) _ (forward_ok _ ws hwsne hv)]
      rw [getD_map_lt (fun j => ws.getD j (⟨[], []⟩ : Tensor)) sel k ⟨[], []⟩ 0 hk]
  · intro ws ws2 i hv hv2 hi hi2 heq
    have hne : ws ≠ [] := by
      intro hnil; subst hnil; simp at hi
    have hne2 : ws2 ≠ [] := by
      intro hnil; subst hnil; simp at hi2
    refine ⟨_, _, forward_ok _ ws hne hv, forward_ok _ ws2 hne2 hv2, ?_⟩
    rw [← hsw]
    rw [forward_row _ ws hne hv i hi _ (forward_ok _ ws hne hv),
      forward_row _ ws2 hne2 hv2 i hi2 _ (forward_ok _ ws2 hne2 hv2), heq]

/-- C8: with fixed parameters and the module in inference mode (dropout
inactive), `forward` is a deterministic function of its input: its value is
independent of the stochastic dropout source, so two calls with identical
input produce identical output. -/
theorem C8_inference_deterministic (n h : Nat) (b : Bool) (l : Nat) (dr : ℚ)
    (cell : Nat → Bool → (Fin h → ℚ) → (Fin h → ℚ) → List ℚ →
      (Fin h → ℚ) × (Fin h → ℚ))
    (mask1 mask2 : Nat → Nat → Nat → Bool) (ws : List Tensor) :
    (CharLSTM.init n h b l dr cell mask1 false).forward ws
      = (CharLSTM.init n h b l dr cell mask2 false).forward ws := by
  exact forward_mask n (CharLSTM.init n h b l dr cell mask1 false).output_size
    (CharLSTM.init n h b l dr cell mask2 false).rnn mask1 ws

/-- C9: per-word processing is exactly: insert a leading batch dimension,
run the primitive, keep the final hidden state `state[0]` (discarding the
per-step outputs and the cell state) of shape
`[(layers * directions), 1, hidden_size]`, drop the unit dimensions and
flatten into a single `output_size`-vector in the native
layer/direction order of the primitive; the output row of the word equals this flattened state. -/
theorem C9_per_word_pipeline (n h : Nat) (b : Bool) (l : Nat) (dr : ℚ)
    (cell : Nat → Bool → (Fin h → ℚ) → (Fin h → ℚ) → List ℚ →
      (Fin h → ℚ) × (Fin h → ℚ))
    (mask : Nat → Nat → Nat → Bool) (tr : Bool) (m : CharLSTM)
    (hm : m = CharLSTM.init n h b l dr cell mask tr)
    (w : Tensor) (t : Nat) (ht : t ≠ 0) (hsh : w.shape = [t, n]) :
    ∃ out hN cN,
      lstmForward m.rnn m.training w.unsqueeze0 = .ok (out, hN, cN)
      ∧ hN.shape = [l * (if b then 2 else 1), 1, h]
      ∧ hN.squeezeAll.viewFlat.unsqueeze0 = ⟨[1, m.output_size], hN.data⟩
      ∧ hN.data.length = m.output_size
      ∧ m.forward [w] = .ok ⟨[1, m.output_size], hN.data⟩ := by
  subst hm
  have hsw := init_stateWidth n h b l dr cell mask tr
  have hvw : ∀ x ∈ [w],
      isValidWord (CharLSTM.init n h b l dr cell mask tr).rnn.input_size x
        = true := by
    intro x hx
    rw [List.mem_singleton.mp hx]
    simp [isValidWord, hsh, ht, CharLSTM.init]
  refine ⟨_, _, _, word_step _ _ w t ht hsh, ?_, ?_, ?_, ?_⟩
  · cases b
    · rfl
    · rfl
  · rw [row_tensor_eq]
    rw [show (CharLSTM.init n h b l dr cell mask tr).rnn.num_layers *
          (CharLSTM.init n h b l dr cell mask tr).rnn.directions *
          (CharLSTM.init n h b l dr cell mask tr).rnn.hidden_size
        = (CharLSTM.init n h b l dr cell mask tr).output_size from hsw]
  · rw [wordFeature_length _ _ w t n hsh, hsw]
  · rw [forward_ok _ [w] (by simp) hvw]
    simp [hsw]

/-- C10 (implicit claim): `forward` distributes over list concatenation: on
two non-empty lists of valid words, the combined call returns the row-wise
stacking of the two separate calls. -/
theorem C10_concat_batches (n h : Nat) (b : Bool) (l : Nat) (dr : ℚ)
    (cell : Nat → Bool → (Fin h → ℚ) → (Fin h → ℚ) → List ℚ →
      (Fin h → ℚ) × (Fin h → ℚ))
    (mask : Nat → Nat → Nat → Bool) (tr : Bool) (m : CharLSTM)
    (hm : m = CharLSTM.init n h b l dr cell mask tr)
    (xs ys : List Tensor) (hx : xs ≠ []) (hy : ys ≠ [])
    (hvx : ∀ w ∈ xs, isValidWord n w = true)
    (hvy : ∀ w ∈ ys, isValidWord n w = true) :
    ∃ t1 t2 t3, m.forward xs = .ok t1 ∧ m.forward ys = .ok t2
      ∧ m.forward (xs ++ ys) = .ok t3
      ∧ t3.shape = [xs.length + ys.length, m.output_size]
      ∧ t3.data = t1.data ++ t2.data := by
  subst hm
  have hsw := init_stateWidth n h b l dr cell mask tr
  have hvxy : ∀ w ∈ xs ++ ys, isValidWord n w = true := by
    intro w hw
    rcases List.mem_append.mp hw with hw1 | hw2
    · exact hvx w hw1
    · exact hvy w hw2
  refine ⟨_, _, _, forward_ok _ xs hx hvx, forward_ok _ ys hy hvy,
    forward_ok _ (xs ++ ys) (by simp [hx]) hvxy, ?_, ?_⟩
  · simp [hsw]
  · simp

/-- Witness for C3: a concrete bidirectional encoder on two valid words
returns the concrete `[2, 2]` feature matrix. -/
theorem C3_witness :
    ([(⟨[2, 2], [1, 0, 0, 1]⟩ : Tensor), ⟨[1, 2], [3, 4]⟩] ≠ ([] : List Tensor))
    ∧ (CharLSTM.init 2 1 true 1 0 cellA maskA false).forward
        [⟨[2, 2], [1, 0, 0, 1]⟩, ⟨[1, 2], [3, 4]⟩]
      = .ok ⟨[2, 2], [1, 1, 3, 3]⟩ := by
  refine ⟨by decide, ?_⟩
  have hc := C3_forward_shape_rows 2 1 true 1 0 cellA maskA false _ rfl
    [⟨[2, 2], [1, 0, 0, 1]⟩, ⟨[1, 2], [3, 4]⟩] (by decide) (by decide)
  rw [hc.1]
  simp only [wordFeature, lstmRun, runLayers, runLayer, scanCell, chunkRows,
    cellA, zerosV, CharLSTM.init, LSTMMod.directions, List.ofFn]
  norm_num [wordFeature, lstmRun, runLayers, runLayer, scanCell, chunkRows,
    cellA, zerosV, List.ofFn_succ, List.ofFn_zero, List.range_succ]

/-- Witness for C5: a single word with 3 columns on a 2-character encoder
makes the call fail with the width-mismatch error and leaves the module
unchanged. -/
theorem C5_witness :
    (CharLSTM.init 2 1 true 1 0 cellA maskA false).forward
        [⟨[1, 3], [1, 2, 3]⟩] = .error .inputSizeMismatch
    ∧ (CharLSTM.init 2 1 true 1 0 cellA maskA false).encodeCall
        [⟨[1, 3], [1, 2, 3]⟩]
      = (.error .inputSizeMismatch, CharLSTM.init 2 1 true 1 0 cellA maskA false) :=
  C5_width_mismatch_fails 2 1 true 1 0 cellA maskA false _ rfl
    [⟨[1, 3], [1, 2, 3]⟩] (by decide)
    ⟨⟨[1, 3], [1, 2, 3]⟩, by simp, by decide⟩

/-- Witness for C7: two word lists agreeing in their first word produce the
same first output row even though their second words differ. -/
theorem C7_witness :
    ∃ t t2,
      (CharLSTM.init 2 1 true 1 0 cellA maskA false).forward
          [⟨[2, 2], [1, 0, 0, 1]⟩, ⟨[1, 2], [3, 4]⟩] = .ok t
      ∧ (CharLSTM.init 2 1 true 1 0 cellA maskA false).forward
          [⟨[2, 2], [1, 0, 0, 1]⟩, ⟨[1, 2], [9, 9]⟩] = .ok t2
      ∧ t.row 0 (CharLSTM.init 2 1 true 1 0 cellA maskA false).output_size
        = t2.row 0 (CharLSTM.init 2 1 true 1 0 cellA maskA false).output_size :=
  (C7_row_locality 2 1 true 1 0 cellA maskA false _ rfl).2
    [⟨[2, 2], [1, 0, 0, 1]⟩, ⟨[1, 2], [3, 4]⟩]
    [⟨[2, 2], [1, 0, 0, 1]⟩, ⟨[1, 2], [9, 9]⟩] 0
    (by decide) (by decide) (by decide) (by decide) (by decide)

/-- Witness for C9: the per-word pipeline facts at a concrete word on a
concrete bidirectional encoder. -/
theorem C9_witness :
    ∃ out hN cN,
      lstmForward (CharLSTM.init 2 1 true 1 0 cellA maskA false).rnn false
          (Tensor.unsqueeze0 ⟨[2, 2], [1, 0, 0, 1]⟩) = .ok (out, hN, cN)
      ∧ hN.shape = [2, 1, 1]
      ∧ hN.squeezeAll.viewFlat.unsqueeze0 = ⟨[1, 2], hN.data⟩
      ∧ hN.data.length = 2
      ∧ (CharLSTM.init 2 1 true 1 0 cellA maskA false).forward
          [⟨[2, 2], [1, 0, 0, 1]⟩] = .ok ⟨[1, 2], hN.data⟩ :=
  C9_per_word_pipeline 2 1 true 1 0 cellA maskA false _ rfl
    ⟨[2, 2], [1, 0, 0, 1]⟩ 2 (by decide) (by decide)

/-- Witness for C10: concatenating two singleton batches equals the combined
call on a concrete encoder. -/
theorem C10_witness :
    ∃ t1 t2 t3,
      (CharLSTM.init 2 1 true 1 0 cellA maskA false).forward
          [⟨[2, 2], [1, 0, 0, 1]⟩] = .ok t1
      ∧ (CharLSTM.init 2 1 true 1 0 cellA maskA false).forward
          [⟨[1, 2], [3, 4]⟩] = .ok t2
      ∧ (CharLSTM.init 2 1 true 1 0 cellA maskA false).forward
          ([⟨[2, 2], [1, 0, 0, 1]⟩] ++ [⟨[1, 2], [3, 4]⟩]) = .ok t3
      ∧ t3.shape = [1 + 1, 2]
      ∧ t3.data = t1.data ++ t2.data :=
  C10_concat_batches 2 1 true 1 0 cellA maskA false _ rfl
    [⟨[2, 2], [1, 0, 0, 1]⟩] [⟨[1, 2], [3, 4]⟩]
    (by decide) (by decide) (by decide) (by decide)

end PyCRF
